import Mathlib

/-!
Verification of the inventory ledger in `src/inventory_system_fixed.py`.

The module keeps one global mapping `stock_data` from item name to integer
quantity, mutated by `add_item` / `remove_item`, queried by `get_qty` /
`check_low_items`, and synchronized with a JSON file by `load_data` /
`save_data`.

Embedding choices:
- The Python `dict` is an insertion-ordered association list
  `Stock := List (String × Int)`; `dictSet` updates the first occurrence in
  place (keeping its position) or appends a new key at the end, `dictDel`
  deletes the first occurrence, `dictGetOpt` finds the first occurrence.
  These mirror CPython dict semantics; reachable dicts never carry a
  duplicate key, so theorems that need it take a `NodupKeys` hypothesis.
- `add_item` receives dynamically typed arguments, modelled by `PyVal`
  (string, int or None) with Python truthiness; the timestamp prefix of its
  log entry is abstracted away (no claim mentions it).
- File I/O is modelled by the outcome the runtime delivers to the function
  body: `ReadOutcome` distinguishes a missing file (`FileNotFoundError`),
  any other OSError such as `PermissionError` (`osError`), content that
  fails JSON parsing (`JSONDecodeError`, `malformed`), and successfully
  parsed content (`parsed`). `load_data` and `save_data` return
  `Except String _`: `.error` is an exception escaping to the caller,
  exactly the exceptions their `try/except` blocks do not catch.
- `logging.error` / `logging.warning` / `logging.info` calls are collected
  as a list of levelled `Diag` events.
-/

namespace Inventory

/-- Dynamically typed Python value, restricted to the shapes the program
ever passes to `add_item`: a string, an integer, or None. -/
inductive PyVal where
  | pyStr (s : String)
  | pyInt (n : Int)
  | pyNone
  deriving DecidableEq, Repr

/-- Python truthiness: `not item` is True exactly on falsy values
(empty string, zero, None). -/
def PyVal.truthy : PyVal → Bool
  | .pyStr s => s ≠ ""
  | .pyInt n => n ≠ 0
  | .pyNone => false

/-- Models `isinstance(v, str)`. -/
def PyVal.isStr : PyVal → Bool
  | .pyStr _ => true
  | _ => false

/-- Models `isinstance(v, int)`. -/
def PyVal.isInt : PyVal → Bool
  | .pyInt _ => true
  | _ => false

/-- Models `str(type(v))`, used in the validation diagnostics. -/
def PyVal.typeName : PyVal → String
  | .pyStr _ => "class str"
  | .pyInt _ => "class int"
  | .pyNone => "class NoneType"

/-- The in-memory mapping `stock_data`: insertion-ordered association list
from item name to quantity. -/
abbrev Stock := List (String × Int)

/-- Severity of a `logging` call. -/
inductive Level where
  | info
  | warning
  | error
  deriving DecidableEq, Repr

/-- One emitted logging event. -/
structure Diag where
  level : Level
  msg : String
  deriving DecidableEq, Repr

/-- First value stored under key `k`, i.e. `d[k]` when present
(CPython resolves a key to its unique slot; on duplicate-free lists this
is the value of the key). -/
def dictGetOpt (d : Stock) (k : String) : Option Int :=
  match d with
  | [] => none
  | (k', v) :: rest => if k' = k then some v else dictGetOpt rest k

/-- Models `d.get(k, 0)`. -/
def dictGet (d : Stock) (k : String) : Int :=
  (dictGetOpt d k).getD 0

/-- Models `k in d`. -/
def dictContains (d : Stock) (k : String) : Bool :=
  (dictGetOpt d k).isSome

/-- Models `d[k] = v`: update the key in place keeping its position, or
append it at the end — CPython dicts preserve insertion order. -/
def dictSet (d : Stock) (k : String) (v : Int) : Stock :=
  match d with
  | [] => [(k, v)]
  | (k', v') :: rest =>
      if k' = k then (k, v) :: rest else (k', v') :: dictSet rest k v

/-- Models `del d[k]`: drop the entry for key `k`. -/
def dictDel (d : Stock) (k : String) : Stock :=
  match d with
  | [] => []
  | (k', v') :: rest => if k' = k then rest else (k', v') :: dictDel rest k

/-- Keys of the mapping in iteration order. -/
def keys (d : Stock) : List String :=
  d.map Prod.fst

/-- A mapping with no duplicate key — every dict reachable through the
Python API satisfies this. -/
def NodupKeys (d : Stock) : Prop :=
  (keys d).Nodup

instance (d : Stock) : Decidable (NodupKeys d) :=
  inferInstanceAs (Decidable (keys d).Nodup)

/-- Result of an operation on the global state: the new `stock_data` and
the logging events emitted during the call. -/
structure OpResult where
  stock : Stock
  diags : List Diag
  deriving DecidableEq, Repr

/-- Result of `add_item`, which additionally mutates the caller-supplied
`logs` list. -/
structure AddResult where
  stock : Stock
  logs : List String
  diags : List Diag
  deriving DecidableEq, Repr

/-- Faithful translation of `add_item(item, qty, logs)`
(src/inventory_system_fixed.py lines 17-47): falsy item is a silent no-op;
a non-string item or non-integer quantity logs an error and performs no
mutation; otherwise `stock_data[item] = stock_data.get(item, 0) + qty`,
the log entry is appended to `logs` and logged at info level (its
`datetime.now()` prefix is abstracted away). -/
def add_item (stock : Stock) (item : PyVal) (qty : PyVal)
    (logs : List String) : AddResult :=
  if item.truthy = false then
    ⟨stock, logs, []⟩
  else
    match item with
    | .pyStr s =>
        match qty with
        | .pyInt n =>
            let entry := "Added " ++ toString n ++ " of " ++ s
            ⟨dictSet stock s (dictGet stock s + n), logs ++ [entry],
              [⟨.info, entry⟩]⟩
        | q =>
            ⟨stock, logs,
              [⟨.error, "Invalid quantity type: " ++ q.typeName
                ++ ". Expected integer."⟩]⟩
    | i =>
        ⟨stock, logs,
          [⟨.error, "Invalid item type: " ++ i.typeName
            ++ ". Expected string."⟩]⟩

/-- Faithful translation of `remove_item(item, qty)`
(src/inventory_system_fixed.py lines 50-70): an absent item raises
`KeyError`, caught in the same function and logged at error level;
otherwise `stock_data[item] -= qty`, and when the result is `<= 0` the
key is deleted and an info event logged. -/
def remove_item (stock : Stock) (item : String) (qty : Int) : OpResult :=
  if dictContains stock item = false then
    ⟨stock, [⟨.error, "Item " ++ item ++ " not found in inventory"⟩]⟩
  else
    let newVal := dictGet stock item - qty
    if newVal ≤ 0 then
      ⟨dictDel stock item,
        [⟨.info, "Removed all " ++ item ++ " from inventory"⟩]⟩
    else
      ⟨dictSet stock item newVal, []⟩

/-- Faithful translation of `get_qty(item)`
(src/inventory_system_fixed.py lines 73-83): `stock_data.get(item, 0)`. -/
def get_qty (stock : Stock) (item : String) : Int :=
  dictGet stock item

/-- Faithful translation of `check_low_items(threshold)`
(src/inventory_system_fixed.py lines 144-158): iterate the mapping in
order, collecting every item whose quantity is `< threshold`. -/
def check_low_items (stock : Stock) (threshold : Int) : List String :=
  stock.foldl
    (fun result p => if p.2 < threshold then result ++ [p.1] else result) []

/-- Outcome the runtime delivers to the body of `load_data`:
the file is missing (`FileNotFoundError`), opening or reading fails with
another OSError such as `PermissionError` (`osError`), the content fails
JSON parsing (`JSONDecodeError`), or it parses to a mapping. The exact
JSON text encoding is abstracted to the parsed mapping. -/
inductive ReadOutcome where
  | missing
  | osError (e : String)
  | malformed (e : String)
  | parsed (m : Stock)
  deriving DecidableEq, Repr

/-- Faithful translation of `load_data(file)`
(src/inventory_system_fixed.py lines 86-105): on success `stock_data` is
replaced wholesale; `except FileNotFoundError` resets it to empty with a
warning; `except json.JSONDecodeError` logs an error and leaves it
untouched; any other exception — e.g. a `PermissionError` from `open` —
is not caught and escapes to the caller (`Except.error`). -/
def load_data (stock : Stock) (r : ReadOutcome) :
    Except String OpResult :=
  match r with
  | .parsed m => .ok ⟨m, [⟨.info, "Successfully loaded data"⟩]⟩
  | .missing =>
      .ok ⟨[], [⟨.warning, "File not found. Starting with empty inventory."⟩]⟩
  | .malformed e => .ok ⟨stock, [⟨.error, "Invalid JSON: " ++ e⟩]⟩
  | .osError e => .error e

/-- Outcome the runtime delivers to the body of `save_data`: the write
succeeds, or it fails with an `IOError` (permissions, disk full, invalid
path). -/
inductive WriteOutcome where
  | success
  | ioError (e : String)
  deriving DecidableEq, Repr

/-- Result of `save_data`: the mapping written to the file when the write
succeeded, and the logging events. `save_data` never mutates
`stock_data`. -/
structure SaveResult where
  file : Option Stock
  diags : List Diag
  deriving DecidableEq, Repr

/-- Faithful translation of `save_data(file)`
(src/inventory_system_fixed.py lines 108-123): `json.dump(stock_data, f)`
writes the whole mapping; `except IOError` catches every I/O failure of
the body and logs it, so both outcomes return normally (`Except.ok`). -/
def save_data (stock : Stock) (w : WriteOutcome) :
    Except String SaveResult :=
  match w with
  | .success => .ok ⟨some stock, [⟨.info, "Successfully saved data"⟩]⟩
  | .ioError e => .ok ⟨none, [⟨.error, "Error saving: " ++ e⟩]⟩

/-- One call of the public API, as issued by an external caller. -/
inductive Op where
  | add (item qty : PyVal)
  | remove (item : String) (qty : Int)
  | getQty (item : String)
  | checkLow (threshold : Int)
  | load (r : ReadOutcome)
  | save (w : WriteOutcome)
  deriving DecidableEq, Repr

/-- Effect of one API call on the global `stock_data`. When `load_data`
raises, the assignment to `stock_data` has not happened, so the mapping
is unchanged at the point the exception escapes. -/
def step (stock : Stock) : Op → Stock
  | .add i q => (add_item stock i q []).stock
  | .remove i q => (remove_item stock i q).stock
  | .getQty _ => stock
  | .checkLow _ => stock
  | .load r =>
      match load_data stock r with
      | .ok res => res.stock
      | .error _ => stock
  | .save _ => stock

/-- State reached by running a sequence of API calls on a fresh (empty)
ledger. -/
def run (ops : List Op) : Stock :=
  ops.foldl step []

/-- Data-model invariant claimed by the spec: every item present in the
mapping has a strictly positive quantity. -/
def Inv (stock : Stock) : Prop :=
  ∀ p ∈ stock, 0 < p.2

instance (d : Stock) : Decidable (Inv d) :=
  inferInstanceAs (Decidable (∀ p ∈ d, 0 < p.2))

/-- State reached by a sequence of `add_item(item, qty)` calls with
string items and integer quantities on a fresh (empty) ledger. -/
def runAdds (calls : List (String × Int)) : Stock :=
  calls.foldl
    (fun st c => (add_item st (PyVal.pyStr c.1) (PyVal.pyInt c.2) []).stock)
    []

/-- Sum of the quantities passed for `item` across a sequence of add
calls. -/
def sumFor (item : String) (calls : List (String × Int)) : Int :=
  ((calls.filter fun c => decide (c.1 = item)).map Prod.snd).sum

/-- Calls that respect the documented input domain as far as quantities
are concerned: `add` is given a positive quantity (when it is an integer
at all) and `load` reads a file whose quantities are all positive. -/
def goodOp : Op → Bool
  | .add _ (.pyInt n) => decide (0 < n)
  | .load (.parsed m) => m.all fun p => decide (0 < p.2)
  | _ => true

/-! Lemmas about the dict operations. -/

lemma dictSet_getOpt_self (d : Stock) (k : String) (v : Int) :
    dictGetOpt (dictSet d k v) k = some v := by
  induction d with
  | nil => simp [dictSet, dictGetOpt]
  | cons p rest ih =>
      by_cases h : p.1 = k
      · simp [dictSet, dictGetOpt, h]
      · simp [dictSet, dictGetOpt, h, ih]

lemma dictSet_getOpt_ne (d : Stock) (k k' : String) (v : Int)
    (h : k' ≠ k) : dictGetOpt (dictSet d k v) k' = dictGetOpt d k' := by
  induction d with
  | nil => simp [dictSet, dictGetOpt, Ne.symm h]
  | cons p rest ih =>
      by_cases hk : p.1 = k
      · simp [dictSet, dictGetOpt, hk, Ne.symm h]
      · by_cases hk' : p.1 = k'
        · simp [dictSet, dictGetOpt, hk, hk', h]
        · simp [dictSet, dictGetOpt, hk, hk', ih]

lemma dictDel_getOpt_ne (d : Stock) (k k' : String) (h : k' ≠ k) :
    dictGetOpt (dictDel d k) k' = dictGetOpt d k' := by
  induction d with
  | nil => simp [dictDel]
  | cons p rest ih =>
      by_cases hk : p.1 = k
      · have hne : ¬ p.1 = k' := by
          intro hh
          exact h (hh ▸ hk)
        simp [dictDel, dictGetOpt, hk, hne, Ne.symm h]
      · by_cases hk' : p.1 = k'
        · simp [dictDel, dictGetOpt, hk, hk', h]
        · simp [dictDel, dictGetOpt, hk, hk', ih]

lemma getOpt_eq_none_of_not_mem_keys (d : Stock) (k : String)
    (h : k ∉ keys d) : dictGetOpt d k = none := by
  induction d with
  | nil => simp [dictGetOpt]
  | cons p rest ih =>
      simp only [keys, List.map_cons, List.mem_cons] at h
      push_neg at h
      have h1 : ¬ p.1 = k := fun hh => h.1 hh.symm
      simp only [dictGetOpt, h1, if_false]
      exact ih (by simpa [keys] using h.2)

lemma dictDel_getOpt_self (d : Stock) (k : String) (h : NodupKeys d) :
    dictGetOpt (dictDel d k) k = none := by
  induction d with
  | nil => simp [dictDel, dictGetOpt]
  | cons p rest ih =>
      simp only [NodupKeys, keys, List.map_cons, List.nodup_cons] at h
      by_cases hk : p.1 = k
      · simp only [dictDel, hk, if_true]
        exact getOpt_eq_none_of_not_mem_keys rest k (hk ▸ h.1)
      · simp only [dictDel, hk, if_false, dictGetOpt]
        exact ih h.2

lemma mem_dictDel (d : Stock) (k : String) (p : String × Int)
    (h : p ∈ dictDel d k) : p ∈ d := by
  induction d with
  | nil => simp [dictDel] at h
  | cons q rest ih =>
      by_cases hk : q.1 = k
      · simp only [dictDel, hk, if_true] at h
        exact List.mem_cons_of_mem _ h
      · simp only [dictDel, hk, if_false, List.mem_cons] at h
        rcases h with h | h
        · exact h ▸ List.mem_cons_self _ _
        · exact List.mem_cons_of_mem _ (ih h)

lemma mem_dictSet (d : Stock) (k : String) (v : Int) (p : String × Int)
    (h : p ∈ dictSet d k v) : p = (k, v) ∨ p ∈ d := by
  induction d with
  | nil =>
      simp only [dictSet, List.mem_singleton] at h
      exact Or.inl h
  | cons q rest ih =>
      by_cases hk : q.1 = k
      · simp only [dictSet, hk, if_true, List.mem_cons] at h
        rcases h with h | h
        · exact Or.inl h
        · exact Or.inr (List.mem_cons_of_mem _ h)
      · simp only [dictSet, hk, if_false, List.mem_cons] at h
        rcases h with h | h
        · exact Or.inr (h ▸ List.mem_cons_self _ _)
        · rcases ih h with h | h
          · exact Or.inl h
          · exact Or.inr (List.mem_cons_of_mem _ h)

lemma getOpt_mem (d : Stock) (k : String) (v : Int)
    (h : dictGetOpt d k = some v) : (k, v) ∈ d := by
  induction d with
  | nil => simp [dictGetOpt] at h
  | cons p rest ih =>
      by_cases hk : p.1 = k
      · simp only [dictGetOpt, hk, if_true, Option.some.injEq] at h
        have hp : (k, v) = p := by
          rw [← hk, ← h]
        exact hp ▸ List.mem_cons_self _ _
      · simp only [dictGetOpt, hk, if_false] at h
        exact List.mem_cons_of_mem _ (ih h)

lemma mem_getOpt (d : Stock) (k : String) (v : Int) (h : NodupKeys d)
    (hm : (k, v) ∈ d) : dictGetOpt d k = some v := by
  induction d with
  | nil => simp at hm
  | cons p rest ih =>
      simp only [NodupKeys, keys, List.map_cons, List.nodup_cons] at h
      rcases List.mem_cons.mp hm with hm | hm
      · simp [dictGetOpt, ← hm]
      · have hk : ¬ p.1 = k := by
          intro hh
          exact h.1 (hh ▸ List.mem_map_of_mem Prod.fst hm)
        simp only [dictGetOpt, hk, if_false]
        exact ih h.2 hm

lemma Inv_dictGet_nonneg (d : Stock) (k : String) (h : Inv d) :
    0 ≤ dictGet d k := by
  unfold dictGet
  cases hg : dictGetOpt d k with
  | none => simp
  | some v =>
      have := h _ (getOpt_mem d k v hg)
      simpa using le_of_lt this

lemma check_low_items_foldl (t : Int) (d : Stock) (acc : List String) :
    d.foldl (fun result p => if p.2 < t then result ++ [p.1] else result)
        acc
      = acc ++ (d.filter fun p => decide (p.2 < t)).map Prod.fst := by
  induction d generalizing acc with
  | nil => simp
  | cons p rest ih =>
      by_cases h : p.2 < t
      · simp [List.foldl_cons, h, ih, List.filter_cons]
      · simp [List.foldl_cons, h, ih, List.filter_cons]

lemma get_qty_foldl_add (calls : List (String × Int)) (st : Stock)
    (item : String) (h : ∀ c ∈ calls, c.1 ≠ "") :
    get_qty
        (calls.foldl
          (fun s c =>
            (add_item s (PyVal.pyStr c.1) (PyVal.pyInt c.2) []).stock)
          st)
        item
      = get_qty st item + sumFor item calls := by
  induction calls generalizing st with
  | nil => simp [sumFor]
  | cons c rest ih =>
      have hc : c.1 ≠ "" := h c (List.mem_cons_self _ _)
      have ht : PyVal.truthy (PyVal.pyStr c.1) = true := by
        simp [PyVal.truthy, hc]
      have hstep :
          (add_item st (PyVal.pyStr c.1) (PyVal.pyInt c.2) []).stock
            = dictSet st c.1 (dictGet st c.1 + c.2) := by
        simp [add_item, ht]
      rw [List.foldl_cons, hstep,
        ih _ (fun d hd => h d (List.mem_cons_of_mem _ hd))]
      by_cases hi : c.1 = item
      · subst hi
        have : get_qty (dictSet st c.1 (dictGet st c.1 + c.2)) c.1
            = dictGet st c.1 + c.2 := by
          simp [get_qty, dictGet, dictSet_getOpt_self]
        rw [this]
        simp only [sumFor, List.filter_cons, decide_eq_true_eq, if_pos rfl]
        simp [sumFor, get_qty, dictGet]
        ring
      · have : get_qty (dictSet st c.1 (dictGet st c.1 + c.2)) item
            = get_qty st item := by
          simp [get_qty, dictGet,
            dictSet_getOpt_ne st c.1 item _ (Ne.symm hi)]
        rw [this]
        simp only [sumFor, List.filter_cons, decide_eq_true_eq, hi,
          if_false]

/-! Theorems settling the claims. -/

/-- C2: for every pre-populated mapping and a file whose content is
malformed (a `json.JSONDecodeError`), `load_data` returns normally with
the in-memory mapping exactly equal to its prior state — not reset, not
partially applied — and emits an error diagnostic. -/
theorem C2_load_malformed_preserves_state (st : Stock) (e : String) :
    ∃ res, load_data st (ReadOutcome.malformed e) = Except.ok res ∧
      res.stock = st ∧ ∃ d ∈ res.diags, d.level = Level.error := by
  refine ⟨⟨st, [⟨Level.error, "Invalid JSON: " ++ e⟩]⟩, rfl, rfl, ?_⟩
  exact ⟨⟨Level.error, "Invalid JSON: " ++ e⟩, List.mem_singleton.mpr rfl,
    rfl⟩

/-- C3 as stated is false: `load_data` catches only `FileNotFoundError`
and `json.JSONDecodeError`, so an OSError such as a `PermissionError`
raised while opening the file escapes to the caller instead of being
turned into a diagnostic. -/
theorem C3_counterexample :
    load_data [] (ReadOutcome.osError "PermissionError 13") =
      Except.error "PermissionError 13" := rfl

/-- C3 amended: `load_data` returns normally (no exception to the caller)
on success, on a missing file, and on malformed content, and `save_data`
returns normally on every write outcome including `IOError`; but an
OSError other than `FileNotFoundError` arising inside `load_data` — such
as a permission error — propagates to the caller. -/
theorem C3_amended_no_propagation_except_load_oserror
    (st m : Stock) (e e' : String) (w : WriteOutcome) :
    (∃ r, load_data st (ReadOutcome.parsed m) = Except.ok r) ∧
    (∃ r, load_data st ReadOutcome.missing = Except.ok r) ∧
    (∃ r, load_data st (ReadOutcome.malformed e) = Except.ok r) ∧
    (∃ r, save_data st w = Except.ok r) ∧
    load_data st (ReadOutcome.osError e') = Except.error e' := by
  refine ⟨⟨_, rfl⟩, ⟨_, rfl⟩, ⟨_, rfl⟩, ?_, rfl⟩
  cases w with
  | success => exact ⟨_, rfl⟩
  | ioError e'' => exact ⟨_, rfl⟩

/-- C6: saving any ledger state and then loading the same path back
(both file operations succeeding) writes exactly the current mapping and
leaves the in-memory mapping equal to the state immediately before the
save, whatever the mapping held when `load_data` ran. -/
theorem C6_save_load_roundtrip (st other : Stock) :
    ∃ saved res,
      save_data st WriteOutcome.success = Except.ok saved ∧
      saved.file = some st ∧
      load_data other (ReadOutcome.parsed st) = Except.ok res ∧
      res.stock = st :=
  ⟨⟨some st, [⟨Level.info, "Successfully saved data"⟩]⟩,
    ⟨st, [⟨Level.info, "Successfully loaded data"⟩]⟩, rfl, rfl, rfl, rfl⟩

/-- C7: removing an item absent from the mapping leaves the mapping
unchanged, emits an error-level diagnostic (the caught `KeyError`), and
returns normally. -/
theorem C7_remove_absent_unchanged (st : Stock) (item : String)
    (qty : Int) (h : dictGetOpt st item = none) :
    (remove_item st item qty).stock = st ∧
    ∃ d ∈ (remove_item st item qty).diags, d.level = Level.error := by
  have hc : dictContains st item = false := by
    simp [dictContains, h]
  refine ⟨by simp [remove_item, hc], ?_⟩
  simp only [remove_item, hc]
  exact ⟨⟨Level.error, "Item " ++ item ++ " not found in inventory"⟩,
    by simp, rfl⟩

/-- Witness for C7 at the concrete scenario of the spec:
`remove("orange", 1)` on a mapping holding only apples. -/
theorem C7_witness :
    dictGetOpt [("apple", 7)] "orange" = none ∧
    ((remove_item [("apple", 7)] "orange" 1).stock = [("apple", 7)] ∧
      ∃ d ∈ (remove_item [("apple", 7)] "orange" 1).diags,
        d.level = Level.error) :=
  ⟨by decide, C7_remove_absent_unchanged [("apple", 7)] "orange" 1
    (by decide)⟩

/-- C8 as stated is false: `add_item` checks `not item` before the type
validation, so a falsy non-string item — the integer 0 here — is silently
ignored: the mapping is indeed unchanged and nothing propagates, but no
error-level diagnostic is emitted at all. -/
theorem C8_counterexample :
    (add_item [] (PyVal.pyInt 0) (PyVal.pyInt 5) []).stock = [] ∧
    (add_item [] (PyVal.pyInt 0) (PyVal.pyInt 5) []).diags = [] := by
  exact ⟨rfl, rfl⟩

/-- C8 amended: `add_item` with a non-string item or a non-integer
quantity leaves the mapping and the caller-supplied log list unchanged
and propagates nothing; it emits an error-level diagnostic whenever the
item is truthy, while a falsy item (empty string, 0, None) is silently
ignored with no diagnostic. -/
theorem C8_amended_invalid_add_no_mutation (st : Stock)
    (item qty : PyVal) (logs : List String)
    (h : item.isStr = false ∨ qty.isInt = false) :
    (add_item st item qty logs).stock = st ∧
    (add_item st item qty logs).logs = logs ∧
    (item.truthy = true →
      ∃ d ∈ (add_item st item qty logs).diags, d.level = Level.error) := by
  cases item with
  | pyNone =>
      refine ⟨rfl, rfl, ?_⟩
      intro ht
      simp [PyVal.truthy] at ht
  | pyInt n =>
      by_cases hn : n = 0
      · subst hn
        refine ⟨rfl, rfl, ?_⟩
        intro ht
        simp [PyVal.truthy] at ht
      · have ht : PyVal.truthy (PyVal.pyInt n) = true := by
          simp [PyVal.truthy, hn]
        refine ⟨?_, ?_, ?_⟩ <;>
          simp [add_item, ht]
  | pyStr s =>
      rcases h with h | h
      · simp [PyVal.isStr] at h
      · by_cases hs : s = ""
        · subst hs
          refine ⟨rfl, rfl, ?_⟩
          intro ht
          simp [PyVal.truthy] at ht
        · have ht : PyVal.truthy (PyVal.pyStr s) = true := by
            simp [PyVal.truthy, hs]
          cases qty with
          | pyInt n => simp [PyVal.isInt] at h
          | pyStr t =>
              refine ⟨?_, ?_, ?_⟩ <;> simp [add_item, ht]
          | pyNone =>
              refine ⟨?_, ?_, ?_⟩ <;> simp [add_item, ht]

/-- Witness for C8 amended at the invalid call the demo driver makes:
`add_item(123, "ten")`. -/
theorem C8_witness :
    (PyVal.isStr (PyVal.pyInt 123) = false ∨
      PyVal.isInt (PyVal.pyStr "ten") = false) ∧
    ((add_item [("apple", 10)] (PyVal.pyInt 123) (PyVal.pyStr "ten")
        []).stock = [("apple", 10)] ∧
      (add_item [("apple", 10)] (PyVal.pyInt 123) (PyVal.pyStr "ten")
        []).logs = [] ∧
      (PyVal.truthy (PyVal.pyInt 123) = true →
        ∃ d ∈ (add_item [("apple", 10)] (PyVal.pyInt 123)
          (PyVal.pyStr "ten") []).diags, d.level = Level.error)) :=
  ⟨Or.inl rfl, C8_amended_invalid_add_no_mutation [("apple", 10)]
    (PyVal.pyInt 123) (PyVal.pyStr "ten") [] (Or.inl rfl)⟩

/-- C5: when `item` is present with quantity `prev`, `remove_item`
followed by `get_qty` observes 0 when `prev - qty ≤ 0` (the key was
deleted) and `prev - qty` otherwise. -/
theorem C5_remove_then_get (st : Stock) (item : String) (qty prev : Int)
    (hnd : NodupKeys st) (hp : dictGetOpt st item = some prev) :
    get_qty (remove_item st item qty).stock item =
      if prev - qty ≤ 0 then 0 else prev - qty := by
  have hc : dictContains st item = true := by
    simp [dictContains, hp]
  have hg : dictGet st item = prev := by
    simp [dictGet, hp]
  by_cases hle : prev - qty ≤ 0
  · simp only [remove_item, hc, Bool.true_eq_false, if_false, hg, hle,
      if_true]
    simp [get_qty, dictGet, dictDel_getOpt_self st item hnd, hle]
  · simp only [remove_item, hc, Bool.true_eq_false, if_false, hg, hle,
      if_false]
    simp [get_qty, dictGet, dictSet_getOpt_self, hle]

/-- Witness for C5 at the concrete scenario of the spec:
`remove("apple", 3)` on a ledger holding 10 apples observes 7. -/
theorem C5_witness :
    NodupKeys [("apple", 10), ("banana", 5)] ∧
    dictGetOpt [("apple", 10), ("banana", 5)] "apple" = some 10 ∧
    get_qty (remove_item [("apple", 10), ("banana", 5)] "apple" 3).stock
        "apple" = if (10 : Int) - 3 ≤ 0 then 0 else 10 - 3 :=
  ⟨by decide, by decide,
    C5_remove_then_get [("apple", 10), ("banana", 5)] "apple" 3 10
      (by decide) (by decide)⟩

/-- C10: immediately after `remove_item`, the targeted item is either
absent from the mapping or mapped to a strictly positive quantity,
regardless of its prior value and of the sign of `qty`: the decremented
value is stored only when it is `> 0`, otherwise the key is deleted. -/
theorem C10_remove_leaves_absent_or_positive (st : Stock) (item : String)
    (qty : Int) (hnd : NodupKeys st) :
    dictGetOpt (remove_item st item qty).stock item = none ∨
    ∃ q, dictGetOpt (remove_item st item qty).stock item = some q ∧
      0 < q := by
  cases hc : dictContains st item with
  | false =>
      left
      have : dictGetOpt st item = none := by
        simpa [dictContains] using hc
      simp [remove_item, hc, this]
  | true =>
      by_cases hle : dictGet st item - qty ≤ 0
      · left
        simp only [remove_item, hc, Bool.true_eq_false, if_false, hle,
          if_true]
        exact dictDel_getOpt_self st item hnd
      · right
        refine ⟨dictGet st item - qty, ?_, by omega⟩
        simp only [remove_item, hc, Bool.true_eq_false, if_false, hle,
          if_false]
        exact dictSet_getOpt_self st item _

/-- Witness for C10: over-removal (`remove("a", 9)` with 5 in stock)
drives the key to deletion. -/
theorem C10_witness :
    NodupKeys [("a", 5)] ∧
    (dictGetOpt (remove_item [("a", 5)] "a" 9).stock "a" = none ∨
      ∃ q, dictGetOpt (remove_item [("a", 5)] "a" 9).stock "a" = some q ∧
        0 < q) :=
  ⟨by decide, C10_remove_leaves_absent_or_positive [("a", 5)] "a" 9
    (by decide)⟩

/-- C4: for any sequence of `add_item(item, qty)` calls on a fresh
ledger whose items are non-empty strings (the documented input domain)
and whose quantities are positive integers, `get_qty(item)` afterwards
equals the sum of the quantities passed for that item. -/
theorem C4_adds_sum (calls : List (String × Int)) (item : String)
    (h : ∀ c ∈ calls, c.1 ≠ "" ∧ 0 < c.2) :
    get_qty (runAdds calls) item = sumFor item calls := by
  have := get_qty_foldl_add calls [] item (fun c hc => (h c hc).1)
  simpa [runAdds, get_qty, dictGet, dictGetOpt] using this

/-- Witness for C4: two adds of apple and one of banana sum to 12
apples. -/
theorem C4_witness :
    (∀ c ∈ [("apple", (10 : Int)), ("banana", 5), ("apple", 2)],
      c.1 ≠ "" ∧ 0 < c.2) ∧
    get_qty (runAdds [("apple", 10), ("banana", 5), ("apple", 2)]) "apple"
      = sumFor "apple" [("apple", 10), ("banana", 5), ("apple", 2)] :=
  ⟨by decide,
    C4_adds_sum [("apple", 10), ("banana", 5), ("apple", 2)] "apple"
      (by decide)⟩

/-- C9: `check_low_items(threshold)` returns, in the mapping's iteration
order, exactly the items whose quantity is strictly less than the
threshold: the result is the ordered filter of the mapping, and an item
is in it iff it is stored with a quantity `< threshold` (so quantity
equal to the threshold is excluded). -/
theorem C9_check_low_items (st : Stock) (t : Int) (hnd : NodupKeys st) :
    check_low_items st t
        = (st.filter fun p => decide (p.2 < t)).map Prod.fst ∧
    ∀ i, i ∈ check_low_items st t ↔
      ∃ q, dictGetOpt st i = some q ∧ q < t := by
  have he : check_low_items st t
      = (st.filter fun p => decide (p.2 < t)).map Prod.fst := by
    have := check_low_items_foldl t st []
    simpa [check_low_items] using this
  refine ⟨he, ?_⟩
  intro i
  rw [he]
  constructor
  · intro hi
    rcases List.mem_map.mp hi with ⟨p, hp, hpi⟩
    rcases List.mem_filter.mp hp with ⟨hpd, hplt⟩
    refine ⟨p.2, ?_, by simpa using hplt⟩
    have hm : (i, p.2) ∈ st := by
      have : p = (i, p.2) := by
        rw [← hpi]
      exact this ▸ hpd
    exact mem_getOpt st i p.2 hnd hm
  · rintro ⟨q, hq, hlt⟩
    exact List.mem_map.mpr ⟨(i, q),
      List.mem_filter.mpr ⟨getOpt_mem st i q hq, by simpa using hlt⟩, rfl⟩

/-- Witness for C9 at the mapping of the spec example: with apple at 3
and banana at 10, threshold 5 selects exactly apple. -/
theorem C9_witness :
    NodupKeys [("apple", 3), ("banana", 10)] ∧
    (check_low_items [("apple", 3), ("banana", 10)] 5
        = (([("apple", 3), ("banana", 10)] : Stock).filter
            fun p => decide (p.2 < 5)).map Prod.fst ∧
      ∀ i, i ∈ check_low_items [("apple", 3), ("banana", 10)] 5 ↔
        ∃ q, dictGetOpt [("apple", 3), ("banana", 10)] i = some q ∧
          q < 5) :=
  ⟨by decide, C9_check_low_items [("apple", 3), ("banana", 10)] 5
    (by decide)⟩

lemma step_preserves_Inv (st : Stock) (op : Op) (hInv : Inv st)
    (hop : goodOp op = true) : Inv (step st op) := by
  cases op with
  | getQty i => simpa [step] using hInv
  | checkLow t => simpa [step] using hInv
  | save w => simpa [step] using hInv
  | load r =>
      cases r with
      | parsed m =>
          have hm : ∀ p ∈ m, 0 < p.2 := by
            simpa [goodOp, List.all_eq_true] using hop
          simpa [step, load_data, Inv] using hm
      | missing => simp [step, load_data, Inv]
      | malformed e => simpa [step, load_data] using hInv
      | osError e => simpa [step, load_data] using hInv
  | remove item qty =>
      cases hc : dictContains st item with
      | false => simpa [step, remove_item, hc] using hInv
      | true =>
          by_cases hle : dictGet st item - qty ≤ 0
          · simp only [step, remove_item, hc, Bool.true_eq_false,
              if_false, hle, if_true]
            intro p hp
            exact hInv p (mem_dictDel st item p hp)
          · simp only [step, remove_item, hc, Bool.true_eq_false,
              if_false, hle, if_true]
            intro p hp
            rcases mem_dictSet _ _ _ _ hp with hpe | hpm
            · rw [hpe]
              simp only []
              omega
            · exact hInv p hpm
  | add i q =>
      cases i with
      | pyNone => simpa [step, add_item, PyVal.truthy] using hInv
      | pyInt n =>
          by_cases hn : n = 0
          · subst hn
            simpa [step, add_item, PyVal.truthy] using hInv
          · simpa [step, add_item, PyVal.truthy, hn] using hInv
      | pyStr s =>
          by_cases hs : s = ""
          · subst hs
            simpa [step, add_item, PyVal.truthy] using hInv
          · have ht : PyVal.truthy (PyVal.pyStr s) = true := by
              simp [PyVal.truthy, hs]
            cases q with
            | pyStr t => simpa [step, add_item, ht] using hInv
            | pyNone => simpa [step, add_item, ht] using hInv
            | pyInt n =>
                have hn : 0 < n := by
                  simpa [goodOp] using hop
                have hge : 0 ≤ dictGet st s := Inv_dictGet_nonneg st s hInv
                simp only [step, add_item, ht, Bool.true_eq_false,
                  if_false]
                intro p hp
                rcases mem_dictSet _ _ _ _ hp with hpe | hpm
                · rw [hpe]
                  simp only []
                  omega
                · exact hInv p hpm

/-- C1 as stated is false: the reachable state produced by the single
call `add_item("a", 0)` — a valid string item and integer quantity —
stores the item with quantity 0, because `add_item` writes
`stock_data.get(item, 0) + qty` without any positivity check. The spec
itself accepts any sign of `qty` in `add`, so the claimed global
invariant does not hold over all reachable states. -/
theorem C1_counterexample :
    dictGetOpt (run [Op.add (PyVal.pyStr "a") (PyVal.pyInt 0)]) "a"
      = some 0 ∧
    ¬ Inv (run [Op.add (PyVal.pyStr "a") (PyVal.pyInt 0)]) := by
  constructor
  · rfl
  · decide

/-- C1 amended: the invariant does hold on every state reachable by
calls whose quantities respect positivity — every `add` carries a
positive integer quantity and every successfully parsed `load` file
holds only positive quantities. All items present in such a state have
quantity strictly greater than 0; `remove_item` in particular deletes a
key rather than store a value `≤ 0`. -/
theorem C1_amended_reachable_invariant (ops : List Op)
    (h : ∀ op ∈ ops, goodOp op = true) : Inv (run ops) := by
  have key : ∀ (l : List Op) (st : Stock),
      (∀ op ∈ l, goodOp op = true) → Inv st → Inv (l.foldl step st) := by
    intro l
    induction l with
    | nil =>
        intro st _ hst
        simpa using hst
    | cons o rest ih =>
        intro st hl hst
        rw [List.foldl_cons]
        exact ih _ (fun op hop => hl op (List.mem_cons_of_mem _ hop))
          (step_preserves_Inv st o hst (hl o (List.mem_cons_self _ _)))
  have hempty : Inv [] := by
    intro p hp
    simp at hp
  exact key ops [] h hempty

/-- Witness for C1 amended: the demo sequence of the driver with its
valid calls only — two adds and two removes, one of them on an absent
item — reaches a state satisfying the invariant. -/
theorem C1_witness :
    (∀ op ∈ [Op.add (PyVal.pyStr "apple") (PyVal.pyInt 10),
        Op.add (PyVal.pyStr "banana") (PyVal.pyInt 5),
        Op.remove "apple" 3, Op.remove "orange" 1],
      goodOp op = true) ∧
    Inv (run [Op.add (PyVal.pyStr "apple") (PyVal.pyInt 10),
      Op.add (PyVal.pyStr "banana") (PyVal.pyInt 5),
      Op.remove "apple" 3, Op.remove "orange" 1]) :=
  ⟨by decide, C1_amended_reachable_invariant _ (by decide)⟩

end Inventory
